import Mathlib

/-!
Shallow embedding of the saba_core HTTP response parser
(src/saba_core/src/http.rs) and verification of its specification.
Strings are modelled as lists of characters; the fallible constructor
`HttpResponse::new` is modelled as a total function into `ParseResult`,
whose `err` constructor models the typed `Error::Network` result and whose
`fault` constructor models an unrecovered fault (panic / index out of
bounds / unwrap on a parse failure).
-/

namespace Saba

/-- Whitespace test matching the Unicode White_Space property used by the
source's `trim_start` / `trim` calls. -/
def isWS (c : Char) : Bool :=
  c.toNat = 0x09 || c.toNat = 0x0A || c.toNat = 0x0B || c.toNat = 0x0C ||
  c.toNat = 0x0D || c.toNat = 0x20 || c.toNat = 0x85 || c.toNat = 0xA0 ||
  c.toNat = 0x1680 || (0x2000 ≤ c.toNat && c.toNat ≤ 0x200A) ||
  c.toNat = 0x2028 || c.toNat = 0x2029 || c.toNat = 0x202F ||
  c.toNat = 0x205F || c.toNat = 0x3000

/-- Model of `str::trim_start`: drop leading whitespace. -/
def trimStart (l : List Char) : List Char := l.dropWhile isWS

/-- Model of dropping trailing whitespace. -/
def trimEnd (l : List Char) : List Char := (l.reverse.dropWhile isWS).reverse

/-- Model of `str::trim`: drop leading and trailing whitespace. -/
def trim (l : List Char) : List Char := trimEnd (trimStart l)

/-- Model of `str::replace("\n\r", "\n")`: replace every occurrence of the
two-character sequence newline + carriage return by a single newline,
scanning left to right over non-overlapping occurrences. -/
def replaceNR : List Char → List Char
  | [] => []
  | [c] => [c]
  | c1 :: c2 :: rest =>
    if c1 = '\n' ∧ c2 = '\r' then '\n' :: replaceNR rest
    else c1 :: replaceNR (c2 :: rest)

/-- Model of `str::split_once("\n")`: split at the first newline. -/
def splitOnceNL : List Char → Option (List Char × List Char)
  | [] => none
  | c :: rest =>
    if c = '\n' then some ([], rest)
    else (splitOnceNL rest).map (fun p => (c :: p.1, p.2))

/-- Model of `str::split_once("\n\n")`: split at the first occurrence of two
consecutive newlines. -/
def splitOnce2NL : List Char → Option (List Char × List Char)
  | [] => none
  | [_] => none
  | c1 :: c2 :: rest =>
    if c1 = '\n' ∧ c2 = '\n' then some ([], rest)
    else (splitOnce2NL (c2 :: rest)).map (fun p => (c1 :: p.1, p.2))

/-- Model of `str::split("\n")`: split on every newline (never empty;
adjacent separators produce empty pieces). -/
def splitLines : List Char → List (List Char)
  | [] => [[]]
  | c :: rest =>
    if c = '\n' then [] :: splitLines rest
    else
      match splitLines rest with
      | [] => [[c]]
      | l :: ls => (c :: l) :: ls

/-- Model of `str::split(" ")`: split on every single space. -/
def splitSpace : List Char → List (List Char)
  | [] => [[]]
  | c :: rest =>
    if c = ' ' then [] :: splitSpace rest
    else
      match splitSpace rest with
      | [] => [[c]]
      | l :: ls => (c :: l) :: ls

/-- Model of `str::splitn(2, ":")` restricted to what the source uses: the
part before the first colon and the part after it, or `none` when the line
has no colon (in which case indexing `[1]` in the source is a fault). -/
def splitFirstColon : List Char → Option (List Char × List Char)
  | [] => none
  | c :: rest =>
    if c = ':' then some ([], rest)
    else (splitFirstColon rest).map (fun p => (c :: p.1, p.2))

/-- Decimal digit test, as in `char::to_digit(10)`. -/
def isDigit (c : Char) : Bool := '0' ≤ c && c ≤ '9'

/-- Value of a list of decimal digits. -/
def digitsVal (l : List Char) : Nat :=
  l.foldl (fun a c => a * 10 + (c.toNat - 48)) 0

/-- Model of `str::parse::<u32>()`: an optional leading plus sign, then one
or more decimal digits, failing on the empty digit string, any non-digit,
or overflow past 2 ^ 32 - 1. -/
def parseU32 (s : List Char) : Option Nat :=
  let digits := match s with
    | '+' :: rest => rest
    | _ => s
  if digits ≠ [] ∧ digits.all isDigit ∧ digitsVal digits < 4294967296 then
    some (digitsVal digits)
  else none

/-- Header: an owned name/value pair (src/saba_core/src/http.rs). -/
structure Header where
  name : List Char
  value : List Char
deriving DecidableEq

/-- HttpResponse: version, status code, reason, ordered header list, body
(src/saba_core/src/http.rs). -/
structure HttpResponse where
  version : List Char
  statusCode : Nat
  reason : List Char
  headers : List Header
  body : List Char
deriving DecidableEq

/-- Outcome of `HttpResponse::new`: a parsed response, the typed
`Error::Network` carrying its message, or an unrecovered fault (panic). -/
inductive ParseResult where
  | ok (r : HttpResponse)
  | err (msg : List Char)
  | fault
deriving DecidableEq

/-- Model of the header loop of `HttpResponse::new`: for each line, split at
the first colon, trim both sides, and push; a line without a colon is an
out-of-bounds fault, modelled as `none`. -/
def parseHeaders : List (List Char) → Option (List Header)
  | [] => some []
  | line :: rest =>
    match splitFirstColon line with
    | none => none
    | some (n, v) => (parseHeaders rest).map (fun hs => ⟨trim n, trim v⟩ :: hs)

/-- Preprocessing step of `HttpResponse::new`:
`raw_response.trim_start().replace("\n\r", "\n")`. -/
def preprocess (raw : List Char) : List Char := replaceNR (trimStart raw)

/-- Final step of `HttpResponse::new`: split the status line on spaces and
index tokens 0, 1, 2, parsing token 1 as u32; too few tokens or a failed
parse is an unrecovered fault. -/
def finishStatus (sl : List Char) (hs : List Header) (b : List Char) : ParseResult :=
  match splitSpace sl with
  | v :: s :: r :: _ =>
    match parseU32 s with
    | some code => .ok ⟨v, code, r, hs, b⟩
    | none => .fault
  | _ => .fault

/-- Model of `HttpResponse::new` (src/saba_core/src/http.rs lines 19-54). -/
def HttpResponse.new (raw : List Char) : ParseResult :=
  match splitOnceNL (preprocess raw) with
  | none => .err ("invalid http response: ".data ++ preprocess raw)
  | some (sl, rem) =>
    match splitOnce2NL rem with
    | some (hb, b) =>
      match parseHeaders (splitLines hb) with
      | none => .fault
      | some hs => finishStatus sl hs b
    | none => finishStatus sl [] rem

/-- Model of `HttpResponse::header_value`: linear scan in insertion order,
first exact (case-sensitive) name match wins; otherwise the not-found
error message naming the requested header. -/
def headerValue : List Header → List Char → Except (List Char) (List Char)
  | [], name => .error ("failed to find ".data ++ name ++ " in headers".data)
  | h :: rest, name =>
    if h.name == name then .ok h.value else headerValue rest name

/-- Condition under which the status-line step of the source does not fault:
at least three space-separated tokens and token 1 parses as u32. -/
def statusLineOk (sl : List Char) : Bool :=
  match splitSpace sl with
  | _ :: s :: _ :: _ => (parseU32 s).isSome
  | _ => false

/-- Condition under which the header step of the source does not fault:
either no blank-line separator, or every line of the header block
contains a colon. -/
def headersOk (rem : List Char) : Bool :=
  match splitOnce2NL rem with
  | some (hb, _) => (splitLines hb).all (fun line => (splitFirstColon line).isSome)
  | none => true

/-- Test whether the pattern is an initial segment of the list. -/
def leadsWith : List Char → List Char → Bool
  | [], _ => true
  | _ :: _, [] => false
  | p :: ps, c :: cs => p = c && leadsWith ps cs

/-- Test whether the pattern occurs contiguously anywhere in the list. -/
def occursIn (pat : List Char) : List Char → Bool
  | [] => leadsWith pat []
  | c :: cs => leadsWith pat (c :: cs) || occursIn pat cs

/-- Rewriting of an input to use newline + carriage return as its line
separator: every newline becomes the two-character sequence. -/
def expandNR : List Char → List Char
  | [] => []
  | c :: rest =>
    if c = '\n' then '\n' :: '\r' :: expandNR rest else c :: expandNR rest

theorem splitOnceNL_eq_none (l : List Char) : splitOnceNL l = none ↔ '\n' ∉ l := by
  induction l with
  | nil => simp [splitOnceNL]
  | cons c rest ih =>
    by_cases hc : c = '\n'
    · subst hc; simp [splitOnceNL]
    · simp [splitOnceNL, hc, ih]
      exact fun _ h' => hc h'.symm

theorem replaceNR_of_no_nl (l : List Char) (h : '\n' ∉ l) : replaceNR l = l := by
  induction l with
  | nil => rfl
  | cons c rest ih =>
    cases rest with
    | nil => rfl
    | cons c2 rest2 =>
      have hc : ¬ (c = '\n' ∧ c2 = '\r') := by
        rintro ⟨rfl, -⟩; exact h (List.mem_cons_self _ _)
      have h2 : '\n' ∉ c2 :: rest2 := fun hm => h (List.mem_cons_of_mem _ hm)
      simp only [replaceNR, if_neg hc]
      rw [ih h2]

theorem replaceNR_of_no_cr (l : List Char) (h : '\r' ∉ l) : replaceNR l = l := by
  induction l with
  | nil => rfl
  | cons c rest ih =>
    cases rest with
    | nil => rfl
    | cons c2 rest2 =>
      have hc : ¬ (c = '\n' ∧ c2 = '\r') := by
        rintro ⟨-, rfl⟩; exact h (List.mem_cons_of_mem _ (List.mem_cons_self _ _))
      have h2 : '\r' ∉ c2 :: rest2 := fun hm => h (List.mem_cons_of_mem _ hm)
      simp only [replaceNR, if_neg hc]
      rw [ih h2]

theorem mem_of_mem_trimStart {c : Char} {l : List Char} (h : c ∈ trimStart l) :
    c ∈ l := (List.dropWhile_sublist isWS).mem h

theorem leadsWith_iff (p l : List Char) :
    leadsWith p l = true ↔ ∃ t, p ++ t = l := by
  induction p generalizing l with
  | nil => simp [leadsWith]
  | cons x ps ih =>
    cases l with
    | nil => simp [leadsWith]
    | cons c cs =>
      simp only [leadsWith, Bool.and_eq_true, decide_eq_true_eq, ih, List.cons_append,
        List.cons.injEq]
      constructor
      · rintro ⟨rfl, t, rfl⟩; exact ⟨t, rfl, rfl⟩
      · rintro ⟨t, rfl, rfl⟩; exact ⟨rfl, t, rfl⟩

theorem occursIn_iff (pat l : List Char) :
    occursIn pat l = true ↔ ∃ s t, s ++ pat ++ t = l := by
  induction l with
  | nil =>
    simp only [occursIn, leadsWith_iff]
    constructor
    · rintro ⟨t, h⟩; exact ⟨[], t, h⟩
    · rintro ⟨s, t, h⟩
      rcases List.append_eq_nil.mp h with ⟨h1, h2⟩
      rcases List.append_eq_nil.mp h1 with ⟨rfl, rfl⟩
      exact ⟨t, h⟩
  | cons c cs ih =>
    simp only [occursIn, Bool.or_eq_true, leadsWith_iff, ih]
    constructor
    · rintro (⟨t, h⟩ | ⟨s, t, rfl⟩)
      · exact ⟨[], t, by simpa using h⟩
      · exact ⟨c :: s, t, rfl⟩
    · rintro ⟨s, t, h⟩
      cases s with
      | nil => exact Or.inl ⟨t, by simpa using h⟩
      | cons x s2 =>
        simp only [List.cons_append, List.cons.injEq] at h
        exact Or.inr ⟨s2, t, h.2⟩

theorem splitOnce2NL_none_iff (l : List Char) :
    splitOnce2NL l = none ↔ occursIn ['\n', '\n'] l = false := by
  induction l with
  | nil => simp [splitOnce2NL, occursIn, leadsWith]
  | cons c cs ih =>
    cases cs with
    | nil =>
      simp [splitOnce2NL, occursIn, leadsWith]
    | cons c2 rest =>
      by_cases hc : c = '\n' ∧ c2 = '\n'
      · obtain ⟨rfl, rfl⟩ := hc
        simp [splitOnce2NL, occursIn, leadsWith]
      · have hlw : leadsWith ['\n', '\n'] (c :: c2 :: rest) = false := by
          cases Decidable.em (c = '\n') with
          | inl h1 =>
            have h2 : ¬ ('\n' = c2) := fun h2 => hc ⟨h1, h2.symm⟩
            subst h1
            simp [leadsWith, h2]
          | inr h1 =>
            have h1' : ¬ ('\n' = c) := fun h => h1 h.symm
            simp [leadsWith, h1']
        rw [show splitOnce2NL (c :: c2 :: rest) =
              (splitOnce2NL (c2 :: rest)).map (fun p => (c :: p.1, p.2)) by
            simp [splitOnce2NL, hc],
          Option.map_eq_none', ih]
        conv_rhs => rw [occursIn]
        rw [hlw]
        simp

theorem parseHeaders_isSome (ls : List (List Char)) :
    (parseHeaders ls).isSome = ls.all (fun l => (splitFirstColon l).isSome) := by
  induction ls with
  | nil => simp [parseHeaders]
  | cons line rest ih =>
    cases hc : splitFirstColon line with
    | none => simp [parseHeaders, hc]
    | some p =>
      obtain ⟨n, v⟩ := p
      simp [parseHeaders, hc, ih]

theorem parseHeaders_spec (ls : List (List Char)) :
    ∀ hs, parseHeaders ls = some hs →
      hs.length = ls.length ∧
      ∀ i (hi : i < ls.length) (hi2 : i < hs.length),
        ∃ nm vl, splitFirstColon (ls.get ⟨i, hi⟩) = some (nm, vl) ∧
          hs.get ⟨i, hi2⟩ = ⟨trim nm, trim vl⟩ := by
  induction ls with
  | nil =>
    intro hs h
    simp only [parseHeaders, Option.some.injEq] at h
    subst h
    exact ⟨rfl, fun i hi => absurd hi (by simp)⟩
  | cons line rest ih =>
    intro hs h
    cases hc : splitFirstColon line with
    | none => rw [parseHeaders, hc] at h; exact absurd h (by simp)
    | some p =>
      obtain ⟨nm, vl⟩ := p
      rw [parseHeaders, hc] at h
      cases hr : parseHeaders rest with
      | none => rw [hr] at h; exact absurd h (by simp)
      | some tl =>
        rw [hr] at h
        simp only [Option.map_some', Option.some.injEq] at h
        subst h
        obtain ⟨hlen, hidx⟩ := ih tl hr
        refine ⟨by simp [hlen], ?_⟩
        intro i hi hi2
        cases i with
        | zero => exact ⟨nm, vl, hc, rfl⟩
        | succ j =>
          exact hidx j (by simpa using hi) (by simpa using hi2)

theorem finishStatus_of_ok (sl : List Char) (hs : List Header) (b : List Char)
    (h : statusLineOk sl = true) :
    ∃ v c r2, finishStatus sl hs b = .ok ⟨v, c, r2, hs, b⟩ := by
  unfold statusLineOk at h
  rcases hsp : splitSpace sl with _ | ⟨v, _ | ⟨s, _ | ⟨r2, trest⟩⟩⟩ <;>
    rw [hsp] at h <;> simp at h
  cases hps : parseU32 s with
  | none => rw [hps] at h; exact absurd h (by simp)
  | some code => exact ⟨v, code, r2, by simp [finishStatus, hsp, hps]⟩

theorem finishStatus_of_bad (sl : List Char) (hs : List Header) (b : List Char)
    (h : statusLineOk sl = false) :
    finishStatus sl hs b = .fault := by
  unfold statusLineOk at h
  rcases hsp : splitSpace sl with _ | ⟨v, _ | ⟨s, _ | ⟨r2, trest⟩⟩⟩ <;>
    [skip; skip; skip; rw [hsp] at h] <;> simp [finishStatus, hsp]
  cases hps : parseU32 s with
  | none => rfl
  | some code => simp [hps] at h

theorem headerValue_find (hs : List Header) (name : List Char) :
    (∀ hd, hs.find? (fun x => x.name == name) = some hd →
      headerValue hs name = .ok hd.value) ∧
    (hs.find? (fun x => x.name == name) = none →
      headerValue hs name =
        .error ("failed to find ".data ++ name ++ " in headers".data)) := by
  induction hs with
  | nil =>
    exact ⟨fun hd h => absurd h (by simp), fun _ => rfl⟩
  | cons h t ih =>
    cases hb : (h.name == name) with
    | true =>
      constructor
      · intro hd hfind
        simp only [List.find?, hb] at hfind
        injection hfind with hh
        subst hh
        simp [headerValue, hb]
      · intro hfind
        simp only [List.find?, hb] at hfind
        exact Option.noConfusion hfind
    | false =>
      constructor
      · intro hd hfind
        simp only [List.find?, hb] at hfind
        simpa [headerValue, hb] using ih.1 hd hfind
      · intro hfind
        simp only [List.find?, hb] at hfind
        simpa [headerValue, hb] using ih.2 hfind

theorem new_err_of_none (raw : List Char)
    (h : splitOnceNL (preprocess raw) = none) :
    HttpResponse.new raw = .err ("invalid http response: ".data ++ preprocess raw) := by
  unfold HttpResponse.new
  rw [h]

theorem new_eq_cases (raw sl rem : List Char)
    (h1 : splitOnceNL (preprocess raw) = some (sl, rem)) :
    HttpResponse.new raw =
      match splitOnce2NL rem with
      | some (hb, b) =>
        match parseHeaders (splitLines hb) with
        | none => .fault
        | some hs => finishStatus sl hs b
      | none => finishStatus sl [] rem := by
  unfold HttpResponse.new
  rw [h1]

theorem new_no_blank (raw sl rem : List Char)
    (h1 : splitOnceNL (preprocess raw) = some (sl, rem))
    (h2 : splitOnce2NL rem = none) :
    HttpResponse.new raw = finishStatus sl [] rem := by
  rw [new_eq_cases raw sl rem h1, h2]

theorem new_with_block (raw sl rem hb b : List Char)
    (h1 : splitOnceNL (preprocess raw) = some (sl, rem))
    (h2 : splitOnce2NL rem = some (hb, b)) :
    HttpResponse.new raw =
      match parseHeaders (splitLines hb) with
      | none => .fault
      | some hs => finishStatus sl hs b := by
  rw [new_eq_cases raw sl rem h1, h2]

theorem trimStart_expandNR (s : List Char) :
    trimStart (expandNR s) = expandNR (trimStart s) := by
  induction s with
  | nil => rfl
  | cons c rest ih =>
    by_cases hw : isWS c = true
    · have hd : trimStart (c :: rest) = trimStart rest := by
        simp [trimStart, List.dropWhile_cons, hw]
      by_cases hc : c = '\n'
      · subst hc
        have : expandNR ('\n' :: rest) = '\n' :: '\r' :: expandNR rest := by
          simp [expandNR]
        rw [this, hd, ← ih]
        simp [trimStart, List.dropWhile_cons]
        rfl
      · have : expandNR (c :: rest) = c :: expandNR rest := by
          simp [expandNR, hc]
        rw [this, hd, ← ih]
        simp [trimStart, List.dropWhile_cons, hw]
    · have hw' : isWS c = false := by simpa using hw
      have hc : ¬ c = '\n' := by
        intro h; subst h; exact hw (by decide)
      have : expandNR (c :: rest) = c :: expandNR rest := by
        simp [expandNR, hc]
      rw [this]
      simp [trimStart, List.dropWhile_cons, hw', expandNR, hc]

theorem expandNR_eq_nil (s : List Char) : expandNR s = [] ↔ s = [] := by
  cases s with
  | nil => simp [expandNR]
  | cons c rest =>
    constructor
    · intro h
      by_cases hc : c = '\n' <;> simp [expandNR, hc] at h
    · intro h
      exact absurd h (by simp)

theorem replaceNR_expandNR (s : List Char) (h : '\r' ∉ s) :
    replaceNR (expandNR s) = s := by
  induction s with
  | nil => rfl
  | cons c rest ih =>
    have h2 : '\r' ∉ rest := fun hm => h (List.mem_cons_of_mem _ hm)
    by_cases hc : c = '\n'
    · subst hc
      have he : expandNR ('\n' :: rest) = '\n' :: '\r' :: expandNR rest := by
        simp [expandNR]
      rw [he]
      cases hrest : expandNR rest with
      | nil =>
        rw [(expandNR_eq_nil rest).mp hrest]
        rfl
      | cons d w =>
        rw [show replaceNR ('\n' :: '\r' :: d :: w) = '\n' :: replaceNR (d :: w) by
              simp [replaceNR],
          ← hrest, ih h2]
    · have hcr : ¬ c = '\r' := fun hcc => h (hcc ▸ List.mem_cons_self _ _)
      have he : expandNR (c :: rest) = c :: expandNR rest := by
        simp [expandNR, hc]
      rw [he]
      cases hrest : expandNR rest with
      | nil =>
        rw [(expandNR_eq_nil rest).mp hrest]
        rfl
      | cons d w =>
        have hnot : ¬ (c = '\n' ∧ d = '\r') := fun hp => hc hp.1
        rw [show replaceNR (c :: d :: w) = c :: replaceNR (d :: w) by
              simp [replaceNR, hnot],
          ← hrest, ih h2]

theorem preprocess_expandNR (s : List Char) (h : '\r' ∉ s) :
    preprocess (expandNR s) = trimStart s := by
  unfold preprocess
  rw [trimStart_expandNR, replaceNR_expandNR (trimStart s)
    (fun hm => h (mem_of_mem_trimStart hm))]

theorem preprocess_of_no_cr (s : List Char) (h : '\r' ∉ s) :
    preprocess s = trimStart s := by
  unfold preprocess
  exact replaceNR_of_no_cr (trimStart s) (fun hm => h (mem_of_mem_trimStart hm))

theorem splitOnceNL_append (a z : List Char) (h : '\n' ∉ a) :
    splitOnceNL (a ++ '\n' :: z) = some (a, z) := by
  induction a with
  | nil => simp [splitOnceNL]
  | cons c a2 ih =>
    have hc : ¬ c = '\n' := fun hcc => h (hcc ▸ List.mem_cons_self _ _)
    have h2 : '\n' ∉ a2 := fun hm => h (List.mem_cons_of_mem _ hm)
    simp [splitOnceNL, hc, ih h2]

theorem splitOnce2NL_append_left (a z : List Char) (h : '\n' ∉ a) :
    splitOnce2NL (a ++ z) = (splitOnce2NL z).map (fun p => (a ++ p.1, p.2)) := by
  induction a with
  | nil =>
    rw [List.nil_append]
    cases hz : splitOnce2NL z <;> simp [hz]
  | cons c a2 ih =>
    have hc : ¬ c = '\n' := fun hcc => h (hcc ▸ List.mem_cons_self _ _)
    have h2 : '\n' ∉ a2 := fun hm => h (List.mem_cons_of_mem _ hm)
    cases haz : a2 ++ z with
    | nil =>
      obtain ⟨ha2, hz⟩ := List.append_eq_nil.mp haz
      subst ha2
      subst hz
      simp [splitOnce2NL]
    | cons d w =>
      have hnot : ¬ (c = '\n' ∧ d = '\n') := fun hp => hc hp.1
      rw [List.cons_append, haz,
        show splitOnce2NL (c :: d :: w) =
            (splitOnce2NL (d :: w)).map (fun p => (c :: p.1, p.2)) by
          simp [splitOnce2NL, hnot],
        ← haz, ih h2]
      cases splitOnce2NL z <;> simp

theorem splitOnce2NL_cons_nl (z : List Char) (h : z.head? ≠ some '\n') :
    splitOnce2NL ('\n' :: z) = (splitOnce2NL z).map (fun p => ('\n' :: p.1, p.2)) := by
  cases z with
  | nil => simp [splitOnce2NL]
  | cons d w =>
    have hd : ¬ d = '\n' := by simpa using h
    simp [splitOnce2NL, hd]

theorem splitLines_no_nl (a : List Char) (h : '\n' ∉ a) : splitLines a = [a] := by
  induction a with
  | nil => rfl
  | cons c a2 ih =>
    have hc : ¬ c = '\n' := fun hcc => h (hcc ▸ List.mem_cons_self _ _)
    have h2 : '\n' ∉ a2 := fun hm => h (List.mem_cons_of_mem _ hm)
    simp [splitLines, hc, ih h2]

theorem splitLines_append (a z : List Char) (h : '\n' ∉ a) :
    splitLines (a ++ '\n' :: z) = a :: splitLines z := by
  induction a with
  | nil => simp [splitLines]
  | cons c a2 ih =>
    have hc : ¬ c = '\n' := fun hcc => h (hcc ▸ List.mem_cons_self _ _)
    have h2 : '\n' ∉ a2 := fun hm => h (List.mem_cons_of_mem _ hm)
    simp [splitLines, hc, ih h2]

theorem splitFirstColon_append (n v : List Char) (h : ':' ∉ n) :
    splitFirstColon (n ++ ':' :: v) = some (n, v) := by
  induction n with
  | nil => simp [splitFirstColon]
  | cons c n2 ih =>
    have hc : ¬ c = ':' := fun hcc => h (hcc ▸ List.mem_cons_self _ _)
    have h2 : ':' ∉ n2 := fun hm => h (List.mem_cons_of_mem _ hm)
    simp [splitFirstColon, hc, ih h2]

theorem trimStart_append_cons (c : Char) (t z : List Char) (h : isWS c = false) :
    trimStart ((c :: t) ++ z) = (c :: t) ++ z := by
  simp [trimStart, List.dropWhile_cons, h]

theorem not_mem_header_line {c : Char} {n v : List Char} (hn : c ∉ n) (hv : c ∉ v)
    (hc : c ≠ ':') : c ∉ n ++ ':' :: v := by
  intro hm
  rcases List.mem_append.mp hm with h | h
  · exact hn h
  · rcases List.mem_cons.mp h with h | h
    · exact hc h
    · exact hv h

/-- Claim C1, counterexample: the claim asserts that parsing
"HTTP/1.1 200 OK\n\n" yields an empty body; in fact the remaining text
after the status line is "\n", contains no blank-line separator "\n\n",
and therefore becomes the body in full, so no parse result satisfies all
five asserted properties at once. -/
theorem c1_counterexample :
    ¬ ∃ r, HttpResponse.new ("HTTP/1.1 200 OK\n\n".data) = .ok r ∧
      r.version = "HTTP/1.1".data ∧ r.statusCode = 200 ∧ r.reason = "OK".data ∧
      r.headers = [] ∧ r.body = [] := by
  rintro ⟨r, hok, -, -, -, -, hbody⟩
  have h1 : HttpResponse.new ("HTTP/1.1 200 OK\n\n".data) =
      .ok ⟨"HTTP/1.1".data, 200, "OK".data, [], ['\n']⟩ := by decide
  rw [h1] at hok
  injection hok with hh
  subst hh
  exact absurd hbody (by decide)

/-- Claim C1, amended: for the raw text "HTTP/1.1 200 OK\n\n",
HttpResponse::new succeeds with version "HTTP/1.1", status code 200,
reason "OK", an empty header list, and body "\n" (the text after the
status line, which contains no blank-line separator), not the empty
string. -/
theorem c1_status_line_only :
    HttpResponse.new ("HTTP/1.1 200 OK\n\n".data) =
      .ok ⟨"HTTP/1.1".data, 200, "OK".data, [], ['\n']⟩ := by decide

/-- Claim C2, counterexample: for the input "  X" (no newline) the parser
returns the network error, but its message carries the leading-whitespace
trimmed text "X", and the original text "  X" occurs nowhere in the
message, so the error does not carry the original input text. -/
theorem c2_counterexample :
    HttpResponse.new ("  X".data) = .err ("invalid http response: X".data) ∧
    ¬ ∃ s t, s ++ "  X".data ++ t = "invalid http response: X".data := by
  constructor
  · decide
  · intro hex
    rw [← occursIn_iff] at hex
    exact absurd hex (by decide)

/-- Claim C2, amended: for every raw input containing no newline,
HttpResponse::new returns the network/format error (the only typed error
of the parser), and the error message carries the preprocessed text (the
input after leading-whitespace trimming and "\n\r" normalization) as a
contiguous substring, rather than the original input text. -/
theorem c2_no_newline_err (raw : List Char) (h : '\n' ∉ raw) :
    HttpResponse.new raw = .err ("invalid http response: ".data ++ preprocess raw) ∧
    ∃ s t, s ++ preprocess raw ++ t =
      "invalid http response: ".data ++ preprocess raw := by
  have h2 : '\n' ∉ preprocess raw := by
    unfold preprocess
    rw [replaceNR_of_no_nl (trimStart raw) (fun hm => h (mem_of_mem_trimStart hm))]
    exact fun hm => h (mem_of_mem_trimStart hm)
  exact ⟨new_err_of_none raw ((splitOnceNL_eq_none _).mpr h2),
    "invalid http response: ".data, [], by simp⟩

/-- Claim C2, witness for the amended theorem at the concrete input
"abc". -/
theorem c2_witness :
    HttpResponse.new ("abc".data) =
      .err ("invalid http response: ".data ++ preprocess ("abc".data)) ∧
    ∃ s t, s ++ preprocess ("abc".data) ++ t =
      "invalid http response: ".data ++ preprocess ("abc".data) :=
  c2_no_newline_err ("abc".data) (by decide)

/-- Claim C4: for every successfully parsed response and every name,
header lookup returns the value of the first header (in insertion order)
whose name equals the argument under exact case-sensitive equality, and
when no header matches it returns an error whose message names the
requested header (the name occurs in the message). -/
theorem c4_header_value_lookup (raw : List Char) (r : HttpResponse)
    (name : List Char) (_hok : HttpResponse.new raw = .ok r) :
    (∀ hd, r.headers.find? (fun x => x.name == name) = some hd →
      headerValue r.headers name = .ok hd.value) ∧
    (r.headers.find? (fun x => x.name == name) = none →
      headerValue r.headers name =
        .error ("failed to find ".data ++ name ++ " in headers".data) ∧
      ∃ s t, s ++ name ++ t = "failed to find ".data ++ name ++ " in headers".data) := by
  refine ⟨(headerValue_find r.headers name).1, fun h =>
    ⟨(headerValue_find r.headers name).2 h,
     "failed to find ".data, " in headers".data, by simp⟩⟩

/-- Claim C4, witness: for the parse of
"HTTP/1.1 200 OK\nContent-Type: text/html\n\n", lookup of "Content-Type"
returns "text/html". -/
theorem c4_witness :
    headerValue [⟨"Content-Type".data, "text/html".data⟩] ("Content-Type".data) =
      .ok ("text/html".data) :=
  (c4_header_value_lookup ("HTTP/1.1 200 OK\nContent-Type: text/html\n\n".data)
      ⟨"HTTP/1.1".data, 200, "OK".data, [⟨"Content-Type".data, "text/html".data⟩], []⟩
      ("Content-Type".data) (by decide)).1
    ⟨"Content-Type".data, "text/html".data⟩ (by decide)

/-- Claim C8: HttpResponse::new first trims leading whitespace and then
replaces every "\n\r" by "\n" (the `preprocess` definition); consequently
an input written with "\n\r" as its line separator (every newline
immediately followed by a carriage return, and no other carriage return
in the text) parses to exactly the same result as the same input with
plain "\n" separators. -/
theorem c8_nr_separator_equiv (s : List Char) (h : '\r' ∉ s) :
    HttpResponse.new (expandNR s) = HttpResponse.new s := by
  unfold HttpResponse.new
  rw [preprocess_expandNR s h, preprocess_of_no_cr s h]

/-- Claim C8, witness at a concrete response with one header and a body. -/
theorem c8_witness :
    HttpResponse.new (expandNR ("HTTP/1.1 200 OK\nA: b\n\nhello".data)) =
      HttpResponse.new ("HTTP/1.1 200 OK\nA: b\n\nhello".data) :=
  c8_nr_separator_equiv ("HTTP/1.1 200 OK\nA: b\n\nhello".data) (by decide)

/-- Claim C9: parsing is deterministic; HttpResponse::new is a pure
function of the raw text, so equal inputs give structurally equal
results (same version, status code, reason, header list and body, or
the same error). -/
theorem c9_deterministic (r1 r2 : List Char) (h : r1 = r2) :
    HttpResponse.new r1 = HttpResponse.new r2 := by
  rw [h]

/-- Claim C9, witness at a concrete input. -/
theorem c9_witness :
    HttpResponse.new ("HTTP/1.1 200 OK\n\n".data) =
      HttpResponse.new ("HTTP/1.1 200 OK\n\n".data) :=
  c9_deterministic ("HTTP/1.1 200 OK\n\n".data) ("HTTP/1.1 200 OK\n\n".data) rfl

/-- Claim C10: well-formed CRLF line endings are not normalized: for an
input using "\r\n" separators the parsed reason phrase keeps its trailing
carriage return ("OK\r"), while header names and values do not keep it
because they are whitespace-trimmed after the colon split. -/
theorem c10_crlf_not_normalized :
    HttpResponse.new ("HTTP/1.1 200 OK\r\nContent-Type: text/html\r\n\r\n".data) =
      .ok ⟨"HTTP/1.1".data, 200, "OK".data ++ ['\r'],
        [⟨"Content-Type".data, "text/html".data⟩], []⟩ ∧
    '\r' ∉ "Content-Type".data ∧ '\r' ∉ "text/html".data := by
  exact ⟨by decide, by decide, by decide⟩

/-- Claim C3, counterexample: the claim quantifies the fault condition
over inputs containing a newline, but the input "\n" contains a newline
and is neither a fault nor an Ok: leading-whitespace trimming removes the
newline and the parser returns the typed network error. -/
theorem c3_counterexample :
    '\n' ∈ "\n".data ∧ HttpResponse.new ("\n".data) ≠ .fault ∧
    ¬ ∃ r, HttpResponse.new ("\n".data) = .ok r := by
  refine ⟨by decide, by decide, ?_⟩
  rintro ⟨r, hr⟩
  have h1 : HttpResponse.new ("\n".data) =
      .err ("invalid http response: ".data) := by decide
  rw [h1] at hr
  exact ParseResult.noConfusion hr

/-- Claim C3, amended: the fault condition holds of the preprocessed text
(after leading-whitespace trimming and "\n\r" normalization): whenever the
preprocessed text splits at a newline into a status line and a remainder,
the parser faults exactly when the status line does not split on single
spaces into at least three tokens with the second a valid u32, or some
line of the header block lacks a colon; otherwise it returns Ok. -/
theorem c3_fault_characterization (raw sl rem : List Char)
    (h1 : splitOnceNL (preprocess raw) = some (sl, rem)) :
    (HttpResponse.new raw = .fault ↔
      ¬ (statusLineOk sl = true ∧ headersOk rem = true)) ∧
    (statusLineOk sl = true ∧ headersOk rem = true →
      ∃ r, HttpResponse.new raw = .ok r) := by
  cases h2 : splitOnce2NL rem with
  | none =>
    have hho : headersOk rem = true := by simp [headersOk, h2]
    rw [new_no_blank raw sl rem h1 h2]
    cases hsl : statusLineOk sl with
    | true =>
      obtain ⟨v, c, r2, heq⟩ := finishStatus_of_ok sl [] rem hsl
      rw [heq]
      refine ⟨⟨fun hf => ParseResult.noConfusion hf, ?_⟩, fun _ => ⟨_, rfl⟩⟩
      intro hcon
      exact absurd ⟨rfl, hho⟩ hcon
    | false =>
      rw [finishStatus_of_bad sl [] rem hsl]
      refine ⟨⟨fun _ => ?_, fun _ => rfl⟩, ?_⟩
      · rintro ⟨ha, -⟩
        exact Bool.noConfusion ha
      · rintro ⟨ha, -⟩
        exact Bool.noConfusion ha
  | some p =>
    obtain ⟨hb, b⟩ := p
    have hho : headersOk rem =
        ((splitLines hb).all fun line => (splitFirstColon line).isSome) := by
      simp [headersOk, h2]
    rw [new_with_block raw sl rem hb b h1 h2]
    cases hph : parseHeaders (splitLines hb) with
    | none =>
      have hall : ((splitLines hb).all fun line => (splitFirstColon line).isSome) = false := by
        have hiso := parseHeaders_isSome (splitLines hb)
        rw [hph] at hiso
        exact hiso.symm
      refine ⟨⟨fun _ => ?_, fun _ => rfl⟩, ?_⟩
      · rintro ⟨-, hh⟩
        rw [hho, hall] at hh
        exact Bool.noConfusion hh
      · rintro ⟨-, hh⟩
        rw [hho, hall] at hh
        exact Bool.noConfusion hh
    | some hs =>
      have hall : ((splitLines hb).all fun line => (splitFirstColon line).isSome) = true := by
        have hiso := parseHeaders_isSome (splitLines hb)
        rw [hph] at hiso
        exact hiso.symm
      cases hsl : statusLineOk sl with
      | true =>
        obtain ⟨v, c, r2, heq⟩ := finishStatus_of_ok sl hs b hsl
        simp only [heq]
        refine ⟨⟨fun hf => ParseResult.noConfusion hf, ?_⟩, fun _ => ⟨_, rfl⟩⟩
        intro hcon
        exact absurd ⟨by trivial, hho.trans hall⟩ hcon
      | false =>
        simp only [finishStatus_of_bad sl hs b hsl]
        refine ⟨⟨fun _ => ?_, fun _ => by trivial⟩, ?_⟩
        · rintro ⟨ha, -⟩
          exact Bool.noConfusion ha
        · rintro ⟨ha, -⟩
          exact Bool.noConfusion ha

/-- Claim C3, witness for the amended theorem at a well-formed input. -/
theorem c3_witness :
    (HttpResponse.new ("HTTP/1.1 200 OK\nA: b\n\n".data) = .fault ↔
      ¬ (statusLineOk ("HTTP/1.1 200 OK".data) = true ∧
         headersOk ("A: b\n\n".data) = true)) ∧
    (statusLineOk ("HTTP/1.1 200 OK".data) = true ∧
        headersOk ("A: b\n\n".data) = true →
      ∃ r, HttpResponse.new ("HTTP/1.1 200 OK\nA: b\n\n".data) = .ok r) :=
  c3_fault_characterization ("HTTP/1.1 200 OK\nA: b\n\n".data)
    ("HTTP/1.1 200 OK".data) ("A: b\n\n".data) (by decide)

/-- Claim C5: when the remainder after the status line contains a
blank-line separator and every line of the header block contains a colon
(and the status line is well formed), parsing succeeds; the text after
the separator is the body, and the headers are exactly the block's lines
in source order, each split at its first colon with both sides trimmed
of surrounding whitespace. -/
theorem c5_header_block_processing (raw sl rem hb b : List Char)
    (h1 : splitOnceNL (preprocess raw) = some (sl, rem))
    (h2 : splitOnce2NL rem = some (hb, b))
    (h3 : ((splitLines hb).all fun line => (splitFirstColon line).isSome) = true)
    (h4 : statusLineOk sl = true) :
    ∃ r, HttpResponse.new raw = .ok r ∧ r.body = b ∧
      r.headers.length = (splitLines hb).length ∧
      ∀ i (hi : i < (splitLines hb).length) (hi2 : i < r.headers.length),
        ∃ nm vl, splitFirstColon ((splitLines hb).get ⟨i, hi⟩) = some (nm, vl) ∧
          r.headers.get ⟨i, hi2⟩ = ⟨trim nm, trim vl⟩ := by
  rw [new_with_block raw sl rem hb b h1 h2]
  cases hph : parseHeaders (splitLines hb) with
  | none =>
    have hiso := parseHeaders_isSome (splitLines hb)
    rw [hph, h3] at hiso
    exact absurd hiso (by simp)
  | some hs =>
    obtain ⟨v, c, r2, heq⟩ := finishStatus_of_ok sl hs b h4
    obtain ⟨hlen, hidx⟩ := parseHeaders_spec (splitLines hb) hs hph
    exact ⟨⟨v, c, r2, hs, b⟩, heq, rfl, hlen, hidx⟩

/-- Claim C5, witness: the two-header fixture with a trailing space before
each value, whose values come back trimmed and in source order. -/
theorem c5_witness :
    ∃ r, HttpResponse.new
        ("HTTP/1.1 200 OK\nContent-Type: text/html \nContent-Length: 123\n\n".data) =
        .ok r ∧ r.body = [] ∧
      r.headers.length =
        (splitLines ("Content-Type: text/html \nContent-Length: 123".data)).length ∧
      ∀ i (hi : i < (splitLines ("Content-Type: text/html \nContent-Length: 123".data)).length)
        (hi2 : i < r.headers.length),
        ∃ nm vl, splitFirstColon
            ((splitLines ("Content-Type: text/html \nContent-Length: 123".data)).get
              ⟨i, hi⟩) = some (nm, vl) ∧
          r.headers.get ⟨i, hi2⟩ = ⟨trim nm, trim vl⟩ :=
  c5_header_block_processing
    ("HTTP/1.1 200 OK\nContent-Type: text/html \nContent-Length: 123\n\n".data)
    ("HTTP/1.1 200 OK".data)
    ("Content-Type: text/html \nContent-Length: 123\n\n".data)
    ("Content-Type: text/html \nContent-Length: 123".data) []
    (by decide) (by decide) (by decide) (by decide)

/-- Claim C6: when the remainder after the status line contains no
blank-line separator "\n\n", parsing succeeds (given a well-formed status
line) with an empty header list and the entire remainder as the body;
this is not an error. -/
theorem c6_no_blank_line (raw sl rem : List Char)
    (h1 : splitOnceNL (preprocess raw) = some (sl, rem))
    (h2 : occursIn ['\n', '\n'] rem = false)
    (h3 : statusLineOk sl = true) :
    ∃ r, HttpResponse.new raw = .ok r ∧ r.headers = [] ∧ r.body = rem := by
  have h2' : splitOnce2NL rem = none := (splitOnce2NL_none_iff rem).mpr h2
  rw [new_no_blank raw sl rem h1 h2']
  obtain ⟨v, c, r2, heq⟩ := finishStatus_of_ok sl [] rem h3
  exact ⟨⟨v, c, r2, [], rem⟩, heq, rfl, rfl⟩

/-- Claim C6, witness: "HTTP/1.1 200 OK\nhello" parses with no headers and
body "hello". -/
theorem c6_witness :
    ∃ r, HttpResponse.new ("HTTP/1.1 200 OK\nhello".data) = .ok r ∧
      r.headers = [] ∧ r.body = "hello".data :=
  c6_no_blank_line ("HTTP/1.1 200 OK\nhello".data) ("HTTP/1.1 200 OK".data)
    ("hello".data) (by decide) (by decide) (by decide)

/-- Claim C7: two header lines carrying the same name are preserved as two
distinct entries of the headers list in source order (never merged), and
header_value for the duplicated name returns the value of the first
occurrence. The theorem covers every response built from a duplicated
header name and two values (no embedded separators, trimmed forms). -/
theorem c7_duplicate_headers (n v1 v2 : List Char)
    (hnn : '\n' ∉ n) (hnv1 : '\n' ∉ v1) (hnv2 : '\n' ∉ v2)
    (hrn : '\r' ∉ n) (hrv1 : '\r' ∉ v1) (hrv2 : '\r' ∉ v2)
    (hcn : ':' ∉ n)
    (htn : trim n = n) (htv1 : trim v1 = v1) (htv2 : trim v2 = v2) :
    HttpResponse.new ("HTTP/1.1 200 OK".data ++
        '\n' :: ((n ++ ':' :: v1) ++ '\n' :: ((n ++ ':' :: v2) ++ ['\n', '\n']))) =
      .ok ⟨"HTTP/1.1".data, 200, "OK".data, [⟨n, v1⟩, ⟨n, v2⟩], []⟩ ∧
    headerValue [⟨n, v1⟩, ⟨n, v2⟩] n = .ok v1 := by
  have hnl1 : '\n' ∉ n ++ ':' :: v1 := not_mem_header_line hnn hnv1 (by decide)
  have hnl2 : '\n' ∉ n ++ ':' :: v2 := not_mem_header_line hnn hnv2 (by decide)
  have hcr1 : '\r' ∉ n ++ ':' :: v1 := not_mem_header_line hrn hrv1 (by decide)
  have hcr2 : '\r' ∉ n ++ ':' :: v2 := not_mem_header_line hrn hrv2 (by decide)
  have hcr : '\r' ∉ "HTTP/1.1 200 OK".data ++
      '\n' :: ((n ++ ':' :: v1) ++ '\n' :: ((n ++ ':' :: v2) ++ ['\n', '\n'])) := by
    intro hm
    rcases List.mem_append.mp hm with h | h
    · exact absurd h (by decide)
    · rcases List.mem_cons.mp h with h | h
      · exact absurd h (by decide)
      · rcases List.mem_append.mp h with h | h
        · exact hcr1 h
        · rcases List.mem_cons.mp h with h | h
          · exact absurd h (by decide)
          · rcases List.mem_append.mp h with h | h
            · exact hcr2 h
            · exact absurd h (by decide)
  have htrim : trimStart ("HTTP/1.1 200 OK".data ++
      '\n' :: ((n ++ ':' :: v1) ++ '\n' :: ((n ++ ':' :: v2) ++ ['\n', '\n']))) =
      "HTTP/1.1 200 OK".data ++
      '\n' :: ((n ++ ':' :: v1) ++ '\n' :: ((n ++ ':' :: v2) ++ ['\n', '\n'])) :=
    trimStart_append_cons 'H' ("TTP/1.1 200 OK".data)
      ('\n' :: ((n ++ ':' :: v1) ++ '\n' :: ((n ++ ':' :: v2) ++ ['\n', '\n'])))
      (by decide)
  have hpre : preprocess ("HTTP/1.1 200 OK".data ++
      '\n' :: ((n ++ ':' :: v1) ++ '\n' :: ((n ++ ':' :: v2) ++ ['\n', '\n']))) =
      "HTTP/1.1 200 OK".data ++
      '\n' :: ((n ++ ':' :: v1) ++ '\n' :: ((n ++ ':' :: v2) ++ ['\n', '\n'])) := by
    unfold preprocess
    rw [htrim]
    exact replaceNR_of_no_cr _ hcr
  have h1 : splitOnceNL (preprocess ("HTTP/1.1 200 OK".data ++
      '\n' :: ((n ++ ':' :: v1) ++ '\n' :: ((n ++ ':' :: v2) ++ ['\n', '\n'])))) =
      some ("HTTP/1.1 200 OK".data,
        (n ++ ':' :: v1) ++ '\n' :: ((n ++ ':' :: v2) ++ ['\n', '\n'])) := by
    rw [hpre]
    exact splitOnceNL_append _ _ (by decide)
  have hhd2 : ((n ++ ':' :: v2) ++ ['\n', '\n']).head? ≠ some '\n' := by
    cases n with
    | nil =>
      simp
    | cons x xs =>
      simp only [List.cons_append, List.head?_cons, ne_eq, Option.some.injEq]
      intro hx
      exact hnn (hx ▸ List.mem_cons_self x xs)
  have h2 : splitOnce2NL ((n ++ ':' :: v1) ++ '\n' :: ((n ++ ':' :: v2) ++ ['\n', '\n'])) =
      some ((n ++ ':' :: v1) ++ '\n' :: (n ++ ':' :: v2), []) := by
    rw [splitOnce2NL_append_left _ _ hnl1, splitOnce2NL_cons_nl _ hhd2,
      splitOnce2NL_append_left _ _ hnl2]
    simp [splitOnce2NL]
  have hlines : splitLines ((n ++ ':' :: v1) ++ '\n' :: (n ++ ':' :: v2)) =
      [n ++ ':' :: v1, n ++ ':' :: v2] := by
    rw [splitLines_append _ _ hnl1, splitLines_no_nl _ hnl2]
  have hph : parseHeaders (splitLines ((n ++ ':' :: v1) ++ '\n' :: (n ++ ':' :: v2))) =
      some [⟨n, v1⟩, ⟨n, v2⟩] := by
    rw [hlines]
    simp [parseHeaders, splitFirstColon_append _ _ hcn, htn, htv1, htv2]
  constructor
  · rw [new_with_block _ _ _ _ _ h1 h2, hph]
    simp [finishStatus,
      show splitSpace ("HTTP/1.1 200 OK".data) =
        ["HTTP/1.1".data, "200".data, "OK".data] from by decide,
      show parseU32 ("200".data) = some 200 from by decide]
  · simp [headerValue]

/-- Claim C7, witness at name "A" with values "1" and "2". -/
theorem c7_witness :
    HttpResponse.new ("HTTP/1.1 200 OK".data ++
        '\n' :: (("A".data ++ ':' :: "1".data) ++
          '\n' :: (("A".data ++ ':' :: "2".data) ++ ['\n', '\n']))) =
      .ok ⟨"HTTP/1.1".data, 200, "OK".data,
        [⟨"A".data, "1".data⟩, ⟨"A".data, "2".data⟩], []⟩ ∧
    headerValue [⟨"A".data, "1".data⟩, ⟨"A".data, "2".data⟩] ("A".data) =
      .ok ("1".data) :=
  c7_duplicate_headers ("A".data) ("1".data) ("2".data)
    (by decide) (by decide) (by decide) (by decide) (by decide) (by decide)
    (by decide) (by decide) (by decide) (by decide)

end Saba
